import Mathlib

/-!
Verification of the skin-weight serialization and re-targeting engine
(`skin_cluster_manager.py`, `skinning.py`, `skin_cluster.py`, `KDTree.py`,
`utils/skin_utils.py`).

Machine floats are embedded as an inductive `PyFloat` (an IEEE nan or an
exact rational value); Maya `MVector`s as rational 3-vectors; per-vertex
string blind-data records at the token level (influence-name/value pairs);
fallible host calls as `Except`.
-/

/-- A Python/IEEE double as the engine observes it: either the quiet nan or a
finite value, embedded as an exact rational.  (Signed zero and infinities play
no role in the code paths verified here.) -/
inductive PyFloat where
  | nan : PyFloat
  | val : ℚ → PyFloat
deriving DecidableEq, Repr

instance : Inhabited PyFloat := ⟨PyFloat.val 0⟩

/-- The guard `weight_value != 0.0` from `get_skinning_data` /
`store_weights`: IEEE `!=` is true for nan against anything, and for a finite
value true iff it is nonzero. -/
def pyNeqZero : PyFloat → Bool
  | PyFloat.nan => true
  | PyFloat.val q => decide (q ≠ 0)

/-- The guard `str(weight_value) != "NaN"` from `get_skinning_data` /
`store_weights`.  CPython renders the IEEE nan as the string `"nan"` and a
finite float as a numeral, so the comparison against `"NaN"` is true for
every float value; in particular it fails to detect nan. -/
def strNeqNaN : PyFloat → Bool
  | PyFloat.nan => decide (("nan") ≠ ("NaN"))
  | PyFloat.val _ => true

/-- Maya `MVector` with exact rational coordinates. -/
structure MVector where
  x : ℚ
  y : ℚ
  z : ℚ
deriving DecidableEq, Repr

instance : Inhabited MVector := ⟨⟨0, 0, 0⟩⟩

/-- A sequence of indexed in-place assignments `chunk[i] = v`, as performed by
the `weight_chunk[joint_index] = weight_value` loops. -/
def writeAll (ws : List (ℕ × α)) (init : List α) : List α :=
  ws.foldl (fun c p => c.set p.1 p.2) init

theorem writeAll_nil (init : List α) : writeAll [] init = init := rfl

theorem writeAll_cons (p : ℕ × α) (ws : List (ℕ × α)) (init : List α) :
    writeAll (p :: ws) init = writeAll ws (init.set p.1 p.2) := rfl

theorem length_writeAll (ws : List (ℕ × α)) (init : List α) :
    (writeAll ws init).length = init.length := by
  induction ws generalizing init with
  | nil => rfl
  | cons p ws ih => simpa [writeAll] using ih (init.set p.1 p.2)

theorem getD_writeAll_of_not_mem (ws : List (ℕ × α)) (init : List α) (i : ℕ)
    (d : α) (h : i ∉ ws.map Prod.fst) :
    (writeAll ws init).getD i d = init.getD i d := by
  induction ws generalizing init with
  | nil => rfl
  | cons p ws ih =>
    simp only [List.map_cons, List.mem_cons] at h
    push_neg at h
    rw [writeAll_cons, ih _ h.2]
    simp only [List.getD, List.get?_eq_getElem?,
      List.getElem?_set_ne (Ne.symm h.1)]

theorem getD_writeAll_of_mem (ws : List (ℕ × α)) (init : List α) (i : ℕ)
    (v : α) (d : α) (hnd : (ws.map Prod.fst).Nodup) (hmem : (i, v) ∈ ws)
    (hi : i < init.length) :
    (writeAll ws init).getD i d = v := by
  induction ws generalizing init with
  | nil => simp at hmem
  | cons p ws ih =>
    simp only [List.map_cons, List.nodup_cons] at hnd
    rcases List.mem_cons.mp hmem with h | h
    · subst h
      rw [writeAll_cons, getD_writeAll_of_not_mem _ _ _ _ hnd.1]
      simp [List.getD, List.get?_eq_getElem?, List.getElem?_set_self hi]
    · exact ih (init.set p.1 p.2) hnd.2 h (by simpa using hi)

/-- One entry of `skinning_data['verts']`: a world-space position, a vertex
normal and the sparse `(influence_index, weight_value)` pairs
(`SkinClusterManager.get_skinning_data`, `skin_cluster_manager.py` 90-95). -/
structure VertRecord where
  position : MVector
  normal : MVector
  weights : List (ℕ × PyFloat)
deriving DecidableEq, Repr

instance : Inhabited VertRecord := ⟨⟨default, default, []⟩⟩

/-- The serializable skinning data built by `get_skinning_data`
(`skin_cluster_manager.py` 57-63).  The Python `verts` dict is keyed by the
contiguous vertex ids `0 .. N-1`, so it is embedded as a list indexed by
vertex id.  (`influence_ids`, always `[0 .. K-1]`, carries no information
beyond `influences` and is omitted.) -/
structure SkinningData where
  input_geometry : String
  influences : List String
  verts : List VertRecord
deriving DecidableEq, Repr

/-- `BaseSkinCluster.get_weight_data` (`skin_cluster.py` 385-414): chunk the
flat weight array returned by the deformer into per-vertex rows of length
`K = number_of_influences` and pair each entry with its influence index
(`influence_indexes` is `[0 .. K-1]`, see `build_influence_indexes`).
The Python `range(0, L, K)` slicing is embedded as `ceil(L / K)` slices
`weights[v*K : v*K+K]`. -/
def get_weight_data (K : ℕ) (weights : List PyFloat) :
    List (List (ℕ × PyFloat)) :=
  (List.range ((weights.length + K - 1) / K)).map
    (fun v => (List.range K).zip ((weights.drop (v * K)).take K))

/-- The sparsity filter of `get_skinning_data` (`skin_cluster_manager.py`
83-88) and `SkinHandler.store_weights` (`skinning.py` 246-251): keep a pair
iff `weight_value != 0.0 and str(weight_value) != "NaN"`. -/
def filter_weight_pairs (pairs : List (ℕ × PyFloat)) : List (ℕ × PyFloat) :=
  pairs.filter (fun p => pyNeqZero p.2 && strNeqNaN p.2)

/-- `SkinClusterManager.get_skinning_data` (`skin_cluster_manager.py` 48-96):
the export ("gather") operation.  `weights` is the deformer's flat weight
matrix, `positions`/`normals` the world-space points and vertex normals
(assumed to cover every vertex; the weight content of the result does not
depend on them). -/
def get_skinning_data (input_geometry : String) (influences : List String)
    (weights : List PyFloat) (positions normals : List MVector) :
    SkinningData :=
  let weight_data := get_weight_data influences.length weights
  { input_geometry := input_geometry
    influences := influences
    verts := (List.range weight_data.length).map (fun vert_id =>
      { position := positions.getD vert_id default
        normal := normals.getD vert_id default
        weights := filter_weight_pairs (weight_data.getD vert_id []) }) }

/-- `SkinClusterManager._get_weight_chunk` (`skin_cluster_manager.py`
334-363): densify one vertex's sparse pairs into a row of length
`number_of_influences`, resolving each stored influence index through the
target's influence list by name (`influences.index(...)`). -/
def get_weight_chunk (vert_id : ℕ) (skinning_data : SkinningData)
    (number_of_influences : ℕ) (influences : List String) : List PyFloat :=
  writeAll
    (((skinning_data.verts.getD vert_id default).weights).map
      (fun p => (influences.indexOf (skinning_data.influences.getD p.1 ("")),
                 p.2)))
    (List.replicate number_of_influences (PyFloat.val 0))

/-- `SkinClusterManager._get_weight_matrix` (`skin_cluster_manager.py`
365-416) restricted to `verts=None`: build the dense flat matrix for the
target mesh, one chunk per target vertex; with `points` present each target
vertex id is first mapped to its matched source vertex id. -/
def get_weight_matrix (skinning_data : SkinningData)
    (number_of_verts number_of_influences : ℕ) (influences : List String)
    (points : Option (List ℕ)) : List PyFloat :=
  ((List.range number_of_verts).map (fun vert_id =>
    get_weight_chunk
      (match points with
       | some ps => ps.getD vert_id 0
       | none => vert_id)
      skinning_data number_of_influences influences)).flatten

theorem strNeqNaN_eq_true (w : PyFloat) : strNeqNaN w = true := by
  cases w <;> simp [strNeqNaN]

theorem pyNeqZero_eq_false_iff (w : PyFloat) :
    pyNeqZero w = false ↔ w = PyFloat.val 0 := by
  cases w <;> simp [pyNeqZero]

theorem getD_map_range (f : ℕ → α) (n v : ℕ) (hv : v < n) (d : α) :
    ((List.range n).map f).getD v d = f v := by
  simp [List.getD_eq_getElem?_getD, List.getElem?_map, List.getElem?_range hv]

theorem mem_zip_range_iff {K : ℕ} {row : List α} (_hrow : row.length = K)
    {j : ℕ} {w : α} :
    (j, w) ∈ (List.range K).zip row ↔ j < K ∧ row[j]? = some w := by
  constructor
  · intro h
    obtain ⟨i, hi⟩ := List.mem_iff_getElem?.mp h
    obtain ⟨h1, h2⟩ := List.getElem?_zip_eq_some.mp hi
    have hiK : i < K := by
      by_contra hle
      rw [List.getElem?_eq_none (by simpa using Nat.le_of_not_lt hle)] at h1
      exact Option.noConfusion h1
    rw [List.getElem?_range hiK] at h1
    obtain rfl : i = j := by simpa using h1
    exact ⟨hiK, h2⟩
  · intro ⟨hj, hw⟩
    exact List.mem_iff_getElem?.mpr
      ⟨j, List.getElem?_zip_eq_some.mpr ⟨by simpa using List.getElem?_range hj, hw⟩⟩

theorem nodup_fst_filter_zip {K : ℕ} {row : List PyFloat}
    (hrow : row.length = K) :
    ((filter_weight_pairs ((List.range K).zip row)).map Prod.fst).Nodup := by
  apply List.Nodup.sublist (List.Sublist.map Prod.fst (List.filter_sublist _))
  rw [List.map_fst_zip _ _ (by simp [hrow])]
  exact List.nodup_range K

theorem get_weight_chunk_densifies (influences : List String)
    (hnd : influences.Nodup) (skinning_data : SkinningData) (v : ℕ)
    (row : List PyFloat) (hrow : row.length = influences.length)
    (hv : (skinning_data.verts.getD v default).weights
        = filter_weight_pairs ((List.range influences.length).zip row))
    (hinf : skinning_data.influences = influences) :
    get_weight_chunk v skinning_data influences.length influences = row := by
  unfold get_weight_chunk
  rw [hv, hinf]
  set K := influences.length with hK
  set P := filter_weight_pairs ((List.range K).zip row) with hP
  have hmapP : P.map
      (fun p => (influences.indexOf (influences.getD p.1 ("")), p.2)) = P := by
    have : ∀ p ∈ P,
        ((influences.indexOf (influences.getD p.1 (""))), p.2) = p := by
      intro p hp
      obtain ⟨a, b⟩ := p
      have hzip : (a, b) ∈ (List.range K).zip row :=
        List.mem_of_mem_filter hp
      have hp1 : a < K := by
        have := (List.of_mem_zip hzip).1
        simpa using this
      have hp2 : a < influences.length := by omega
      simp only
      have hgetD : influences.getD a ("") = influences.get ⟨a, hp2⟩ := by
        rw [List.getD_eq_getElem influences _ hp2]
        simp [List.get_eq_getElem]
      rw [hgetD]
      have hmem : influences.get ⟨a, hp2⟩ ∈ influences :=
        List.get_mem influences a hp2
      have hlt : influences.indexOf (influences.get ⟨a, hp2⟩)
          < influences.length := List.indexOf_lt_length.mpr hmem
      have heq : influences.get ⟨influences.indexOf
            (influences.get ⟨a, hp2⟩), hlt⟩
          = influences.get ⟨a, hp2⟩ := List.indexOf_get hlt
      have hfeq := (List.Nodup.get_inj_iff hnd).mp heq
      have hfin : influences.indexOf (influences.get ⟨a, hp2⟩) = a :=
        congrArg Fin.val hfeq
      rw [hfin]
    calc P.map _ = P.map id := List.map_congr_left this
    _ = P := List.map_id P
  rw [hmapP]
  have hlen : (writeAll P (List.replicate K (PyFloat.val 0))).length
      = row.length := by
    rw [length_writeAll, List.length_replicate, hrow]
  apply List.ext_getElem hlen
  intro j hj1 hj2
  have hjK : j < K := by
    rw [← hrow]; exact hj2
  have hget : (writeAll P (List.replicate K (PyFloat.val 0)))[j]
      = (writeAll P (List.replicate K (PyFloat.val 0))).getD j
          (PyFloat.val 0) := by
    rw [List.getD_eq_getElem _ _ hj1]
  rw [hget]
  by_cases hkeep :
      (pyNeqZero (row[j]) && strNeqNaN (row[j])) = true
  · have hmem : (j, row[j]) ∈ P := by
      rw [hP]
      apply List.mem_filter.mpr
      exact ⟨(mem_zip_range_iff (by rw [hrow])).mpr
        ⟨hjK, List.getElem?_eq_getElem hj2⟩, hkeep⟩
    exact getD_writeAll_of_mem _ _ _ _ _ (nodup_fst_filter_zip (by rw [hrow]))
      hmem (by simpa using hjK)
  · have hval : row[j] = PyFloat.val 0 := by
      rw [strNeqNaN_eq_true, Bool.and_true] at hkeep
      exact (pyNeqZero_eq_false_iff _).mp (Bool.not_eq_true _ ▸ by
        simpa using hkeep)
    have hnotmem : j ∉ P.map Prod.fst := by
      intro hmem
      obtain ⟨p, hpP, hfst⟩ := List.mem_map.mp hmem
      obtain ⟨j2, w⟩ := p
      have hzip : (j2, w) ∈ (List.range K).zip row :=
        List.mem_of_mem_filter hpP
      have hguard := (List.mem_filter.mp hpP).2
      have hw := ((mem_zip_range_iff (by rw [hrow])).mp hzip).2
      simp only at hfst
      rw [hfst, List.getElem?_eq_getElem hj2] at hw
      have hwv : w = row[j] := (Option.some_inj.mp hw).symm
      simp only [hwv, hval] at hguard
      simp [pyNeqZero] at hguard
    rw [getD_writeAll_of_not_mem _ _ _ _ hnotmem, hval]
    simp [List.getD_eq_getElem?_getD, List.getElem?_replicate, hjK]

theorem flatten_slices (K : ℕ) :
    ∀ (N : ℕ) (ws : List α), ws.length = N * K →
      ((List.range N).map (fun v => (ws.drop (v * K)).take K)).flatten = ws := by
  intro N
  induction N with
  | zero =>
    intro ws h
    simp only [Nat.zero_mul] at h
    simp [List.length_eq_zero.mp h]
  | succ n ih =>
    intro ws h
    rw [List.range_succ_eq_map, List.map_cons, List.map_map,
      List.flatten_cons]
    have hcomp : ((fun v => (ws.drop (v * K)).take K) ∘ Nat.succ)
        = fun v => (((ws.drop K).drop (v * K)).take K) := by
      funext v
      simp only [Function.comp_apply, List.drop_drop]
      have hsm : v.succ * K = K + v * K := by
        rw [Nat.succ_mul]; omega
      rw [hsm]
    rw [hcomp, ih (ws.drop K)
      (by rw [List.length_drop, h, Nat.add_mul]; omega)]
    simp

theorem get_weight_data_length (N K : ℕ) (hK : 0 < K)
    (weights : List PyFloat) (hw : weights.length = N * K) :
    (get_weight_data K weights).length = N := by
  unfold get_weight_data
  rw [List.length_map, List.length_range, hw]
  have : N * K + K - 1 = K * N + (K - 1) := by
    rw [Nat.mul_comm]; omega
  rw [this, Nat.mul_add_div hK, Nat.div_eq_of_lt (by omega)]
  omega

theorem get_weight_data_getD (N K : ℕ) (hK : 0 < K)
    (weights : List PyFloat) (hw : weights.length = N * K)
    (v : ℕ) (hv : v < N) :
    (get_weight_data K weights).getD v []
      = (List.range K).zip ((weights.drop (v * K)).take K) := by
  unfold get_weight_data
  rw [getD_map_range]
  rw [hw]
  have : N * K + K - 1 = K * N + (K - 1) := by
    rw [Nat.mul_comm]; omega
  rw [this, Nat.mul_add_div hK, Nat.div_eq_of_lt (by omega)]
  omega

/-- C1 — Round-trip (vertex order): exporting a binding with
`get_skinning_data` and re-densifying it with `_get_weight_matrix` /
`_get_weight_chunk` (vertex-order import: `points=None`, `verts=None`) onto
a target with the same vertex count `N` and the same influence list
reproduces the deformer's dense weight matrix exactly.  The influence names
are pairwise distinct (they are full DAG paths of distinct joints).  Zero
entries are dropped on export and re-densified to `0.0`; nan entries pass
the export filter unchanged (see `gather_emits_nan_weight`), so every entry
round-trips. -/
theorem roundtrip_vertex_order (N K : ℕ) (hK : 0 < K)
    (input_geometry : String) (influences : List String)
    (hKlen : influences.length = K) (hnd : influences.Nodup)
    (weights : List PyFloat) (hw : weights.length = N * K)
    (positions normals : List MVector) :
    get_weight_matrix
      (get_skinning_data input_geometry influences weights positions normals)
      N K influences none
      = weights := by
  subst hKlen
  set K := influences.length with hKdef
  set sd := get_skinning_data input_geometry influences weights
    positions normals with hsd
  unfold get_weight_matrix
  have hrows : ∀ v ∈ List.range N,
      get_weight_chunk v sd K influences = (weights.drop (v * K)).take K := by
    intro v hv
    have hvN : v < N := List.mem_range.mp hv
    apply get_weight_chunk_densifies influences hnd sd v _ _ _ rfl
    · rw [List.length_take, List.length_drop, hw]
      have : v * K + K ≤ N * K := by
        have : v + 1 ≤ N := hvN
        calc v * K + K = (v + 1) * K := by ring
        _ ≤ N * K := Nat.mul_le_mul_right K this
      omega
    · have hverts : sd.verts = (List.range (get_weight_data K weights).length).map
          (fun vert_id =>
            { position := positions.getD vert_id default
              normal := normals.getD vert_id default
              weights := filter_weight_pairs
                ((get_weight_data K weights).getD vert_id []) }) := rfl
      rw [hverts, get_weight_data_length N K hK weights hw,
        getD_map_range _ _ _ hvN]
      simp only
      rw [get_weight_data_getD N K hK weights hw v hvN]
  rw [List.map_congr_left hrows, flatten_slices K N weights hw]

/-- Witness for `roundtrip_vertex_order`: a 2-vertex, 2-influence binding
with weights `[0.6, 0.4, 0, 0.25]`. -/
theorem roundtrip_vertex_order_witness :
    0 < 2
    ∧ (["jointA", "jointB"] : List String).length = 2
    ∧ (["jointA", "jointB"] : List String).Nodup
    ∧ ([PyFloat.val (3/5), PyFloat.val (2/5), PyFloat.val 0,
        PyFloat.val (1/4)] : List PyFloat).length = 2 * 2
    ∧ get_weight_matrix
        (get_skinning_data ("|geo") ["jointA", "jointB"]
          [PyFloat.val (3/5), PyFloat.val (2/5), PyFloat.val 0,
           PyFloat.val (1/4)] [] [])
        2 2 ["jointA", "jointB"] none
        = [PyFloat.val (3/5), PyFloat.val (2/5), PyFloat.val 0,
           PyFloat.val (1/4)] :=
  ⟨by decide, by decide, by decide, by decide,
    roundtrip_vertex_order 2 2 (by decide) ("|geo") ["jointA", "jointB"]
      (by decide) (by decide) _ (by decide) [] []⟩

/-- C2 — the export filter fails to drop nan weights.  The guard in
`get_skinning_data` (`skin_cluster_manager.py` 87) and `store_weights`
(`skinning.py` 250) is `weight_value != 0.0 and str(weight_value) != "NaN"`;
CPython renders a float nan as `"nan"`, so both conjuncts are true for nan
and the pair is emitted.  Evaluated at a 1-vertex, 2-influence binding whose
dense row is `[0.0, nan]`: the zero weight is dropped as claimed, but the
nan weight is exported as the pair `(1, nan)`. -/
theorem gather_emits_nan_weight :
    ((get_skinning_data ("|geo") ["jointA", "jointB"]
        [PyFloat.val 0, PyFloat.nan] [] []).verts.getD 0 default).weights
      = [(1, PyFloat.nan)] := by
  decide

/-- The in-place vert-id conversion loop of
`SkinClusterManager._get_weight_matrix` (`skin_cluster_manager.py` 386-389)
and `SkinHandler.get_weight_array` (`skinning.py` 343-346):

    for vert in verts:
        index = verts.index(vert)
        verts[index] = points[vert]

Python's `for` walks positions `0 .. len(verts)-1` of the list being
mutated (its length never changes), reading the current element each time;
`list.index` returns the first position holding that value.  The Python
code mutates the caller's list in place; the embedding returns the final
contents of that list. -/
def convert_verts_step (points : List ℕ) (vs : List ℕ) (i : ℕ) : List ℕ :=
  let vert := vs.getD i 0
  vs.set (vs.indexOf vert) (points.getD vert 0)

def convert_verts (points verts : List ℕ) : List ℕ :=
  (List.range verts.length).foldl (convert_verts_step points) verts

theorem convert_verts_invariant (points verts : List ℕ)
    (hdisj : ∀ v ∈ verts, points.getD v 0 ∉ verts) :
    ∀ (k i : ℕ), i + k = verts.length →
      List.foldl (convert_verts_step points)
        ((verts.take i).map (fun v => points.getD v 0) ++ verts.drop i)
        (List.range' i k)
      = verts.map (fun v => points.getD v 0) := by
  intro k
  induction k with
  | zero =>
    intro i hi
    have : i = verts.length := by omega
    subst this
    simp
  | succ k ih =>
    intro i hi
    have hilt : i < verts.length := by omega
    rw [List.range'_succ, List.foldl_cons]
    have hpreflen : ((verts.take i).map (fun v => points.getD v 0)).length
        = i := by
      rw [List.length_map, List.length_take]
      omega
    have hdropc : verts.drop i = verts[i] :: verts.drop (i + 1) :=
      List.drop_eq_getElem_cons hilt
    have hstep : convert_verts_step points
        ((verts.take i).map (fun v => points.getD v 0) ++ verts.drop i) i
        = (verts.take (i + 1)).map (fun v => points.getD v 0)
          ++ verts.drop (i + 1) := by
      simp only [convert_verts_step]
      have hvert : ((verts.take i).map (fun v => points.getD v 0)
          ++ verts.drop i).getD i 0 = verts[i] := by
        rw [List.getD_append_right _ _ _ _ (by omega), hpreflen]
        rw [hdropc]
        simp [List.getElem?_eq_getElem hilt]
      rw [hvert]
      have hnotpref : verts[i]
          ∉ (verts.take i).map (fun v => points.getD v 0) := by
        intro hmem
        obtain ⟨v, hv, heq⟩ := List.mem_map.mp hmem
        have hvin : v ∈ verts := List.mem_of_mem_take hv
        exact hdisj v hvin (heq ▸ List.getElem_mem hilt)
      have hidx : ((verts.take i).map (fun v => points.getD v 0)
          ++ verts.drop i).indexOf (verts[i]) = i := by
        rw [List.indexOf_append_of_not_mem hnotpref, hpreflen, hdropc,
          List.indexOf_cons_self]
        omega
      rw [hidx, List.set_append_right _ _ (by omega), hpreflen,
        Nat.sub_self, hdropc, List.set_cons_zero]
      have htake : verts.take (i + 1) = verts.take i ++ [verts[i]] := by
        rw [List.take_succ, List.getElem?_eq_getElem hilt]
        rfl
      rw [htake, List.map_append, List.append_assoc]
      rfl
    rw [hstep]
    exact ih (i + 1) (by omega)

/-- C10 (amended) — when `_get_weight_matrix` / `get_weight_array` is given
both a non-vertex-order mapping (`points`) and a caller-supplied vert list,
the in-place conversion loop rewrites the caller's list so that, position by
position, each original vertex id `v` is replaced by `points[v]` — provided
no mapped value `points[v]` collides with a vertex id present in the list
(the loop resolves the write position with a first-occurrence `list.index`
lookup on the partially rewritten list, so under collisions the final
contents are scrambled; see `convert_verts_counterexample`). -/
theorem convert_verts_maps_ids (points verts : List ℕ)
    (hdisj : ∀ v ∈ verts, points.getD v 0 ∉ verts) :
    convert_verts points verts = verts.map (fun v => points.getD v 0) := by
  unfold convert_verts
  rw [List.range_eq_range']
  have := convert_verts_invariant points verts hdisj verts.length 0
    (by omega)
  simpa using this

/-- Witness for `convert_verts_maps_ids`: verts `[0, 1]`, mapping
`points = [5, 7]` (mapped values disjoint from the vert ids): the caller's
list ends up `[5, 7]`. -/
theorem convert_verts_maps_ids_witness :
    (∀ v ∈ ([0, 1] : List ℕ), ([5, 7] : List ℕ).getD v 0 ∉ ([0, 1] : List ℕ))
    ∧ convert_verts [5, 7] [0, 1] = [5, 7] :=
  ⟨by decide, by
    have := convert_verts_maps_ids [5, 7] [0, 1] (by decide)
    simpa using this⟩

/-- C10 counterexample — the claim as stated is false: with caller list
`[0, 1]` and the non-identity mapping `points = [1, 0]` (vertex 0 maps to
source index 1 and vice versa), the loop first turns the list into `[1, 1]`,
and the second iteration's first-occurrence `index` lookup then overwrites
position 0 again, leaving the final list `[0, 1]` — the original vertex
ids, not the mapped indices `[1, 0]`. -/
theorem convert_verts_counterexample :
    convert_verts [1, 0] [0, 1] = [0, 1]
    ∧ ([0, 1] : List ℕ).map (fun v => ([1, 0] : List ℕ).getD v 0) = [1, 0]
    ∧ ([1, 0] : List ℕ) ≠ [0, 1] := by
  refine ⟨by decide, by decide, by decide⟩

/-- Squared Euclidean distance in ℝ³ (`scipy.spatial.cKDTree` queries by
Euclidean distance; the square is used so the model stays in ℚ — a distance
is zero iff its square is). -/
def sqDist (a b : MVector) : ℚ :=
  (a.x - b.x) ^ 2 + (a.y - b.y) ^ 2 + (a.z - b.z) ^ 2

/-- Modelled from the spec: `scipy.spatial.cKDTree.query` (the spatial-index
`nearest` contract, spec section 4.1) returns an index of a stored point at
minimal Euclidean distance from the query point, ties implementation-defined;
modelled as the first index attaining the minimal distance, paired with the
squared distance. -/
def kdQuery (data : List MVector) (query : MVector) : ℕ × ℚ :=
  let ds := data.map (sqDist query)
  let m := ds.min?.getD 0
  (ds.indexOf m, m)

/-- `get_closest_point_in_kdtree` (`utils/skin_utils.py` 91-104, identical to
`KDTree.get_closest_position_in_KDTree`): returns
`(vertex id, matched point, distance)` for the nearest stored point. -/
def get_closest_point_in_kdtree (kdtree : List MVector) (mvector : MVector) :
    ℕ × MVector × ℚ :=
  let out := kdQuery kdtree mvector
  (out.1, kdtree.getD out.1 default, out.2)

/-- The nearest-neighbor correspondence step of
`SkinClusterManager._get_points` (`skin_cluster_manager.py` 467-475): one
matched source index per target point. -/
def get_points_correspondence (source_points target_points : List MVector) :
    List ℕ :=
  target_points.map
    (fun target_point =>
      (get_closest_point_in_kdtree source_points target_point).1)

/-- The Python exceptions raised on the verified paths, plus the spec's
`EmptyIndexError` taxonomy entry (spec section 7), which no code raises. -/
inductive PyError where
  | indexError
  | valueError
  | typeError
  | emptyIndexError
deriving DecidableEq, Repr

/-- Python truthiness of the optional method-string arguments: `None` and
the empty string are falsy. -/
def pyTruthy : Option String → Bool
  | none => false
  | some s => decide (s ≠ "")

/-- `SkinClusterManager._get_points` (`skin_cluster_manager.py` 418-475):
builds the correspondence from the stored positions (method `"position"`) or
stored normals (`"normal"`) to the target mesh's world-space points; any
other method raises `TypeError`. -/
def manager_get_points (skinning_data : SkinningData)
    (target_points : List MVector) (import_method : String) :
    Except PyError (List ℕ) :=
  if import_method = "position" then
    Except.ok (get_points_correspondence
      (skinning_data.verts.map (fun r => r.position)) target_points)
  else if import_method = "normal" then
    Except.ok (get_points_correspondence
      (skinning_data.verts.map (fun r => r.normal)) target_points)
  else
    Except.error PyError.typeError

/-- `SkinClusterManager.set_skinning_data` (`skin_cluster_manager.py`
98-140), `verts=None` path, up to the weight matrix handed to `setWeights`:
`points = None if not import_method else self._get_points(...)` (so `None`
and `""` are vertex order), and an exception from `_get_points` propagates
to the caller. -/
def manager_set_skinning_data (skinning_data : SkinningData)
    (target_points : List MVector) (import_method : Option String)
    (number_of_verts number_of_influences : ℕ) (influences : List String) :
    Except PyError (List PyFloat) :=
  match import_method with
  | none =>
    Except.ok (get_weight_matrix skinning_data number_of_verts
      number_of_influences influences none)
  | some m =>
    if m = "" then
      Except.ok (get_weight_matrix skinning_data number_of_verts
        number_of_influences influences none)
    else
      (manager_get_points skinning_data target_points m).map
        (fun points => get_weight_matrix skinning_data number_of_verts
          number_of_influences influences (some points))

/-- Outcome of `SkinHandler.set_weights` (`skinning.py` 263-328) as far as
control flow is concerned: either the early `return` on a vertex-count
mismatch (no weights are written), or completion with the effective method
(after any invalid-method fallback) and whether the invalid-method warning
was logged. -/
inductive SetWeightsOutcome where
  | earlyReturn
  | applied (effective_method : Option String) (invalid_method_warned : Bool)
deriving DecidableEq, Repr

/-- The dispatch logic of `SkinHandler.set_weights` (`skinning.py` 275-297):
`if not method and len(points) != self.number_of_verts: return` (a warning is
logged and nothing is written); then `"positions"` / `"normals"` are honored
and any other truthy method logs `"Method ... invalid, defaulting to point
order!"` and falls back to `method = None` (point order); the write then
proceeds. -/
def handler_set_weights_dispatch (method : Option String)
    (stored_vert_count number_of_verts : ℕ) : SetWeightsOutcome :=
  if ¬ pyTruthy method ∧ stored_vert_count ≠ number_of_verts then
    SetWeightsOutcome.earlyReturn
  else if method = some ("positions") then
    SetWeightsOutcome.applied (some ("positions")) false
  else if method = some ("normals") then
    SetWeightsOutcome.applied (some ("normals")) false
  else if pyTruthy method then
    SetWeightsOutcome.applied none true
  else
    SetWeightsOutcome.applied none false

/-- The method-selection step of `import_weights` (`skinning.py` 61-66): if
no method is given and the stored vertex count differs from the target
geometry's, a warning is logged and the method silently becomes
`"positions"` (nearest-position re-targeting). -/
def weights_import_method (method : Option String)
    (imported_vert_count target_vert_count : ℕ) : Option String :=
  if ¬ pyTruthy method ∧ imported_vert_count ≠ target_vert_count then
    some ("positions")
  else
    method

/-- Host-visible side effects on the weight binding: clearing one
influence's lock flag (`setAttr "...liw" 0`) or issuing the `setWeights`
write. -/
inductive SkinEvent where
  | unlock (influence : String)
  | write
deriving DecidableEq, Repr

/-- Side-effect trace of `SkinClusterManager.set_skinning_data`
(`skin_cluster_manager.py` 118-140): `_get_points` first (raising on an
invalid truthy method, so nothing is emitted), then one unlock per
influence (line 126), then the `setWeights` write (line 136). -/
def manager_set_skinning_data_trace (import_method : Option String)
    (influences : List String) : List SkinEvent :=
  match import_method with
  | none => influences.map SkinEvent.unlock ++ [SkinEvent.write]
  | some m =>
    if m = "" ∨ m = "position" ∨ m = "normal" then
      influences.map SkinEvent.unlock ++ [SkinEvent.write]
    else
      []

/-- Side-effect trace of `SkinHandler.set_weights` (`skinning.py` 275-308):
nothing on the early mismatch return; otherwise one unlock per influence
(lines 300-301) before the `setWeights` write (line 308). -/
def handler_set_weights_trace (method : Option String)
    (stored_vert_count number_of_verts : ℕ) (influences : List String) :
    List SkinEvent :=
  if ¬ pyTruthy method ∧ stored_vert_count ≠ number_of_verts then
    []
  else
    influences.map SkinEvent.unlock ++ [SkinEvent.write]

/-- Side-effect trace of `SkinClusterManager.unbake_weights`
(`skin_cluster_manager.py` 198-249): it reads the blind data, builds the
matrix and calls `self.set_weights(weight_matrix)` — no `liw` unlock is
ever issued. -/
def manager_unbake_weights_trace : List SkinEvent := [SkinEvent.write]

/-- `KDTree.KDTree_from_point_list` (`KDTree.py` 23-27): the type check
`type(point_list[0]) == OpenMaya.MVector` subscripts the list, so an empty
point list raises `IndexError`; otherwise the scipy k-d tree is built over
the points (embedded as the point list itself). -/
def KDTree_from_point_list (point_list : List MVector) :
    Except PyError (List MVector) :=
  match point_list with
  | [] => Except.error PyError.indexError
  | _ :: _ => Except.ok point_list

/-- `skin_utils.get_kdtree_from_points` (`utils/skin_utils.py` 79-88): the
comprehension accepts an empty list, and `scipy.spatial.cKDTree([])` then
raises `ValueError` (zero points do not form the 2-D data array scipy
requires — scipy's documented behavior, modelled for the external call). -/
def get_kdtree_from_points (points : List MVector) :
    Except PyError (List MVector) :=
  match points with
  | [] => Except.error PyError.valueError
  | _ :: _ => Except.ok points

/-- Python's `max` over a list of ints (`max(all_blind_data_ids)`); the
empty case never arises because the call is guarded by a membership test
(`get_unique_blind_data_id`). -/
def pyMax (l : List ℤ) : ℤ :=
  match l with
  | [] => 0
  | a :: rest => rest.foldl max a

/-- `get_unique_blind_data_id` (`skin_cluster_manager.py` 22-34 and
`skinning.py` 136-146): `blind_data_id = int(time.time())`; if that ID is
already among the scene's blind-data IDs, return
`max(all_blind_data_ids) + 1` instead. -/
def get_unique_blind_data_id (now : ℤ) (all_blind_data_ids : List ℤ) : ℤ :=
  if now ∈ all_blind_data_ids then pyMax all_blind_data_ids + 1 else now

/-- C5 — on a vertex-count mismatch with no re-targeting method given,
each weight-import operation follows one of the two allowed policies:
`SkinHandler.set_weights` reports the mismatch ("Vert order does not
match!") and returns early without writing the weight matrix, while the
`import_weights` entry point falls back to nearest-position re-targeting
(method `"positions"`, with a warning logged). -/
theorem mismatch_no_method_policies (stored_count target_count : ℕ)
    (hmismatch : stored_count ≠ target_count) :
    weights_import_method none stored_count target_count = some ("positions")
    ∧ handler_set_weights_dispatch none stored_count target_count
        = SetWeightsOutcome.earlyReturn := by
  constructor
  · simp [weights_import_method, pyTruthy, hmismatch]
  · simp [handler_set_weights_dispatch, pyTruthy, hmismatch]

/-- Witness for `mismatch_no_method_policies` at stored count 3,
target count 5. -/
theorem mismatch_no_method_policies_witness :
    (3 : ℕ) ≠ 5
    ∧ weights_import_method none 3 5 = some ("positions")
    ∧ handler_set_weights_dispatch none 3 5
        = SetWeightsOutcome.earlyReturn := by
  refine ⟨by decide, ?_, ?_⟩
  · exact (mismatch_no_method_policies 3 5 (by decide)).1
  · exact (mismatch_no_method_policies 3 5 (by decide)).2

/-- C6 (amended) — an unsupported re-targeting method string is handled
differently by the two import paths: `SkinHandler.set_weights` logs the
invalid-method warning and falls back to vertex order, completing the
weight import, while `SkinClusterManager.set_skinning_data` raises `TypeError`
from `_get_points` and the import does not complete (no
`InvalidMethodError` class exists in the code). -/
theorem invalid_method_behavior (m : String) (hne : m ≠ "")
    (hpos : m ≠ "positions") (hnor : m ≠ "normals")
    (hpos2 : m ≠ "position") (hnor2 : m ≠ "normal")
    (stored_count target_count : ℕ)
    (skinning_data : SkinningData) (target_points : List MVector)
    (number_of_verts number_of_influences : ℕ) (influences : List String) :
    handler_set_weights_dispatch (some m) stored_count target_count
      = SetWeightsOutcome.applied none true
    ∧ manager_set_skinning_data skinning_data target_points (some m)
        number_of_verts number_of_influences influences
      = Except.error PyError.typeError := by
  constructor
  · simp [handler_set_weights_dispatch, pyTruthy, hne, hpos, hnor]
  · simp [manager_set_skinning_data, manager_get_points, hne, hpos2, hnor2,
      Except.map]

/-- Witness for `invalid_method_behavior` at the method string `"bogus"`. -/
theorem invalid_method_behavior_witness :
    ("bogus" ≠ "" ∧ "bogus" ≠ "positions" ∧ "bogus" ≠ "normals"
      ∧ "bogus" ≠ "position" ∧ "bogus" ≠ "normal")
    ∧ handler_set_weights_dispatch (some ("bogus")) 4 4
        = SetWeightsOutcome.applied none true
    ∧ manager_set_skinning_data
        { input_geometry := "|geo", influences := [], verts := [] } []
        (some ("bogus")) 1 1 []
      = Except.error PyError.typeError := by
  refine ⟨⟨by decide, by decide, by decide, by decide, by decide⟩, ?_, ?_⟩
  · exact (invalid_method_behavior "bogus" (by decide) (by decide)
      (by decide) (by decide) (by decide) 4 4
      { input_geometry := "|geo", influences := [], verts := [] } [] 1 1 []).1
  · exact (invalid_method_behavior "bogus" (by decide) (by decide)
      (by decide) (by decide) (by decide) 4 4
      { input_geometry := "|geo", influences := [], verts := [] } [] 1 1 []).2

/-- C6 counterexample — the claim as stated is false: an import call through
`SkinClusterManager.set_skinning_data` with the unsupported method string
`"bogus"` does not fall back and complete; it fails with a `TypeError`
exception (raised by `_get_points`, `skin_cluster_manager.py` 454-465). -/
theorem invalid_method_raises_counterexample :
    manager_set_skinning_data
      { input_geometry := "|geo", influences := [], verts := [] } []
      (some ("bogus")) 1 1 []
      = Except.error PyError.typeError := by
  rfl

/-- C7 (amended) — building the spatial index over an empty point set fails,
but with the generic exceptions of the underlying code, not a dedicated
`EmptyIndexError`: `KDTree.KDTree_from_point_list` raises `IndexError`
(subscripting `point_list[0]`), and `skin_utils.get_kdtree_from_points`
raises scipy's `ValueError`. -/
theorem empty_point_set_build_fails :
    KDTree_from_point_list [] = Except.error PyError.indexError
    ∧ get_kdtree_from_points [] = Except.error PyError.valueError :=
  ⟨rfl, rfl⟩

/-- C7 counterexample — the claim as stated is false at the empty point
list: the error actually raised by `KDTree_from_point_list` is `IndexError`,
which is not the `EmptyIndexError` the claim names (no `EmptyIndexError`
exists anywhere in the code). -/
theorem empty_point_set_error_counterexample :
    KDTree_from_point_list [] = Except.error PyError.indexError
    ∧ PyError.indexError ≠ PyError.emptyIndexError :=
  ⟨rfl, by decide⟩

theorem le_foldl_max (l : List ℤ) : ∀ init : ℤ, init ≤ l.foldl max init := by
  induction l with
  | nil => intro init; simp
  | cons b t ih =>
    intro init
    calc init ≤ max init b := le_max_left init b
    _ ≤ t.foldl max (max init b) := ih (max init b)

theorem mem_le_foldl_max (l : List ℤ) :
    ∀ (init a : ℤ), a ∈ l → a ≤ l.foldl max init := by
  induction l with
  | nil => simp
  | cons b t ih =>
    intro init a ha
    rcases List.mem_cons.mp ha with rfl | ha
    · calc a ≤ max init a := le_max_right init a
      _ ≤ t.foldl max (max init a) := le_foldl_max t (max init a)
    · exact ih (max init b) a ha

theorem le_pyMax_of_mem (l : List ℤ) (a : ℤ) (ha : a ∈ l) : a ≤ pyMax l := by
  cases l with
  | nil => simp at ha
  | cons b t =>
    rcases List.mem_cons.mp ha with rfl | ha
    · exact le_foldl_max t a
    · exact mem_le_foldl_max t b a ha

theorem pyMax_append_singleton (l : List ℤ) (r : ℤ) (hne : l ≠ []) :
    pyMax (l ++ [r]) = max (pyMax l) r := by
  cases l with
  | nil => exact absurd rfl hne
  | cons b t =>
    show ((t ++ [r]).foldl max b) = max (t.foldl max b) r
    rw [List.foldl_append]
    rfl

/-- C8 — snapshot-ID uniqueness: if `get_unique_blind_data_id` is called
twice within the same second (same `int(time.time())` value `now`) and the
first returned ID has been recorded among the existing blind-data IDs
before the second call, the second call returns a strictly greater ID
(either `now` collides, giving `max + 1`, or the first result was `now`
itself, which the second call now finds recorded). -/
theorem unique_blind_data_id_strictly_increases (now : ℤ) (ids : List ℤ) :
    get_unique_blind_data_id now ids
      < get_unique_blind_data_id now
          (ids ++ [get_unique_blind_data_id now ids]) := by
  set r := get_unique_blind_data_id now ids with hr
  rw [get_unique_blind_data_id]
  by_cases h : now ∈ ids
  · rw [if_pos (List.mem_append_left _ h)]
    have hne : ids ≠ [] := List.ne_nil_of_mem h
    rw [pyMax_append_singleton ids r hne]
    have hr1 : r = pyMax ids + 1 := by
      rw [hr, get_unique_blind_data_id, if_pos h]
    have hmax : pyMax ids + 1 ≤ max (pyMax ids) r := hr1 ▸ le_max_right _ _
    omega
  · have hrnow : r = now := by
      rw [hr, get_unique_blind_data_id, if_neg h]
    have hmem : now ∈ ids ++ [r] := by
      rw [hrnow]
      exact List.mem_append_right _ (List.mem_singleton_self now)
    rw [if_pos hmem]
    have := le_pyMax_of_mem (ids ++ [r]) r
      (List.mem_append_right _ (List.mem_singleton_self r))
    omega

/-- C9 (amended) — the import-apply paths clear every referenced influence's
lock before the write: both `SkinClusterManager.set_skinning_data` (on its
non-raising method branches) and `SkinHandler.set_weights` (when not taking
the early mismatch return) emit an unlock for each influence strictly
before the `setWeights` write.  (`SkinClusterManager.unbake_weights` does
not — see `unbake_write_without_unlock_counterexample`;
`SkinHandler.unbake` writes to a freshly created skinCluster.) -/
theorem unlock_before_write (influences : List String) (influence : String)
    (hmem : influence ∈ influences) (import_method : Option String)
    (hvalid : import_method = none ∨ import_method = some ("position")
      ∨ import_method = some ("normal"))
    (method : Option String) (stored_count target_count : ℕ)
    (hwrites : ¬ (¬ pyTruthy method ∧ stored_count ≠ target_count)) :
    [SkinEvent.unlock influence, SkinEvent.write].Sublist
      (manager_set_skinning_data_trace import_method influences)
    ∧ [SkinEvent.unlock influence, SkinEvent.write].Sublist
      (handler_set_weights_trace method stored_count target_count
        influences) := by
  have key : [SkinEvent.unlock influence, SkinEvent.write].Sublist
      (influences.map SkinEvent.unlock ++ [SkinEvent.write]) := by
    have h1 : [SkinEvent.unlock influence].Sublist
        (influences.map SkinEvent.unlock) :=
      List.singleton_sublist.mpr (List.mem_map_of_mem SkinEvent.unlock hmem)
    exact List.Sublist.append h1 (List.Sublist.refl [SkinEvent.write])
  constructor
  · rcases hvalid with rfl | rfl | rfl
    · exact key
    · simpa [manager_set_skinning_data_trace] using key
    · simpa [manager_set_skinning_data_trace] using key
  · rw [handler_set_weights_trace, if_neg hwrites]
    exact key

/-- Witness for `unlock_before_write`: influences `["jointA", "jointB"]`,
vertex-order import (`import_method = None`, `method = None`) with matching
counts 4 = 4. -/
theorem unlock_before_write_witness :
    ("jointA" ∈ (["jointA", "jointB"] : List String)
      ∧ ((none : Option String) = none ∨ (none : Option String)
          = some ("position") ∨ (none : Option String) = some ("normal"))
      ∧ ¬ (¬ pyTruthy none ∧ (4 : ℕ) ≠ 4))
    ∧ [SkinEvent.unlock ("jointA"), SkinEvent.write].Sublist
        (manager_set_skinning_data_trace none ["jointA", "jointB"])
    ∧ [SkinEvent.unlock ("jointA"), SkinEvent.write].Sublist
        (handler_set_weights_trace none 4 4 ["jointA", "jointB"]) := by
  refine ⟨⟨by decide, Or.inl rfl, by decide⟩, ?_, ?_⟩
  · exact (unlock_before_write ["jointA", "jointB"] "jointA" (by decide)
      none (Or.inl rfl) none 4 4 (by decide)).1
  · exact (unlock_before_write ["jointA", "jointB"] "jointA" (by decide)
      none (Or.inl rfl) none 4 4 (by decide)).2

/-- C9 counterexample — the claim as stated is false:
`SkinClusterManager.unbake_weights` writes a weight matrix to the deformer
(its trace is exactly one `setWeights` write) without ever clearing the lock
of a referenced influence such as `"jointA"`. -/
theorem unbake_write_without_unlock_counterexample :
    manager_unbake_weights_trace = [SkinEvent.write]
    ∧ ¬ [SkinEvent.unlock ("jointA"), SkinEvent.write].Sublist
        manager_unbake_weights_trace :=
  ⟨rfl, by decide⟩

theorem sqDist_self (a : MVector) : sqDist a a = 0 := by
  simp [sqDist]

theorem sqDist_nonneg (a b : MVector) : 0 ≤ sqDist a b := by
  unfold sqDist
  positivity

theorem sqDist_eq_zero_iff (a b : MVector) : sqDist a b = 0 ↔ a = b := by
  constructor
  · intro h
    unfold sqDist at h
    have hx2 : (a.x - b.x) ^ 2 = 0 :=
      le_antisymm
        (by nlinarith [sq_nonneg (a.y - b.y), sq_nonneg (a.z - b.z)])
        (sq_nonneg _)
    have hy2 : (a.y - b.y) ^ 2 = 0 :=
      le_antisymm
        (by nlinarith [sq_nonneg (a.x - b.x), sq_nonneg (a.z - b.z)])
        (sq_nonneg _)
    have hz2 : (a.z - b.z) ^ 2 = 0 :=
      le_antisymm
        (by nlinarith [sq_nonneg (a.x - b.x), sq_nonneg (a.y - b.y)])
        (sq_nonneg _)
    have hx : a.x = b.x := by
      have := (pow_eq_zero_iff (two_ne_zero)).mp hx2
      linarith
    have hy : a.y = b.y := by
      have := (pow_eq_zero_iff (two_ne_zero)).mp hy2
      linarith
    have hz : a.z = b.z := by
      have := (pow_eq_zero_iff (two_ne_zero)).mp hz2
      linarith
    obtain ⟨ax, ay, az⟩ := a
    obtain ⟨bx, byy, bz⟩ := b
    simp only at hx hy hz
    rw [hx, hy, hz]
  · rintro rfl
    exact sqDist_self a

theorem indexOf_eq_of_getElem [DecidableEq α] (l : List α) (a : α) :
    ∀ (i : ℕ) (hi : i < l.length), l[i] = a →
      (∀ j (hj : j < i), l[j] ≠ a) →
      l.indexOf a = i := by
  induction l with
  | nil => intro i hi; simp at hi
  | cons b t ih =>
    intro i hi hget hprev
    cases i with
    | zero =>
      simp only [List.getElem_cons_zero] at hget
      exact List.indexOf_cons_eq t hget
    | succ k =>
      have hb : b ≠ a := by
        have := hprev 0 (Nat.succ_pos k)
        simpa using this
      rw [List.indexOf_cons_ne t hb]
      have hk : k < t.length := by simpa using hi
      have hgett : t[k] = a := by simpa using hget
      have hprevt : ∀ j (hj : j < k), t[j] ≠ a := by
        intro j hj
        have := hprev (j + 1) (by omega)
        simpa using this
      rw [ih k hk hgett hprevt]

instance : Std.Antisymm (fun a b : ℚ => a ≤ b) :=
  ⟨fun ha hb => le_antisymm ha hb⟩

theorem kdQuery_self (P : List MVector) (hnd : P.Nodup) (i : ℕ)
    (hi : i < P.length) :
    kdQuery P (P[i]) = (i, 0) := by
  unfold kdQuery
  set ds := P.map (sqDist (P[i])) with hds
  have hlen : ds.length = P.length := by rw [hds, List.length_map]
  have hdsj : ∀ j (hj : j < P.length),
      ds[j] = sqDist (P[i]) (P[j]) := by
    intro j hj
    simp [hds]
  have hzero : ds[i] = 0 := by
    rw [hdsj i hi, sqDist_self]
  have hmem0 : (0 : ℚ) ∈ ds := by
    rw [← hzero]
    exact List.getElem_mem _
  have hlow : ∀ b ∈ ds, (0 : ℚ) ≤ b := by
    intro b hb
    rw [hds] at hb
    obtain ⟨p, _, rfl⟩ := List.mem_map.mp hb
    exact sqDist_nonneg _ _
  have hmin : ds.min? = some 0 :=
    (List.min?_eq_some_iff (fun a => le_refl a) (fun a b => min_choice a b)
      (fun a b c => le_min_iff)).mpr ⟨hmem0, hlow⟩
  show (List.indexOf (ds.min?.getD 0) ds, ds.min?.getD 0) = (i, 0)
  rw [hmin]
  simp only [Option.getD_some]
  have hidx : ds.indexOf 0 = i := by
    apply indexOf_eq_of_getElem ds 0 i (by omega) hzero
    intro j hj hzj
    have hjP : j < P.length := by omega
    rw [hdsj j hjP] at hzj
    have : P[i] = P[j] := (sqDist_eq_zero_iff _ _).mp hzj
    have := (List.Nodup.getElem_inj_iff hnd).mp this
    omega
  rw [hidx]

/-- C3 — re-targeting determinism: the nearest-neighbor correspondence of a
non-empty point set against itself is the identity permutation, and every
matched distance is 0 (stated via the squared distance, which is zero iff
the Euclidean distance is).  Distinctness of the points (they form a point
*set*) makes the matched index unique, so the tie policy never enters. -/
theorem correspond_self_identity (P : List MVector) (_hne : P ≠ [])
    (hnd : P.Nodup) :
    get_points_correspondence P P = List.range P.length
    ∧ ∀ i (hi : i < P.length), (kdQuery P (P[i])).2 = 0 := by
  constructor
  · unfold get_points_correspondence get_closest_point_in_kdtree
    apply List.ext_getElem (by simp)
    intro j h1 h2
    have hjP : j < P.length := by simpa using h2
    simp only [List.getElem_map, List.getElem_range]
    rw [kdQuery_self P hnd j hjP]
  · intro i hi
    rw [kdQuery_self P hnd i hi]

/-- Witness for `correspond_self_identity`: the two-point set
`{(0,0,0), (10,0,0)}`. -/
theorem correspond_self_identity_witness :
    (([⟨0, 0, 0⟩, ⟨10, 0, 0⟩] : List MVector) ≠ []
      ∧ ([⟨0, 0, 0⟩, ⟨10, 0, 0⟩] : List MVector).Nodup)
    ∧ get_points_correspondence
        [⟨0, 0, 0⟩, ⟨10, 0, 0⟩] [⟨0, 0, 0⟩, ⟨10, 0, 0⟩]
      = List.range 2 := by
  refine ⟨⟨by decide, by decide⟩, ?_⟩
  have := (correspond_self_identity [⟨0, 0, 0⟩, ⟨10, 0, 0⟩] (by decide)
    (by decide)).1
  simpa using this

/-- A Maya influence (joint), identified by the components of its full DAG
path (`fullPathName()` split at `"|"`; Maya node names cannot contain `"|"`
or `":"`). -/
structure Influence where
  pathComponents : List String
deriving DecidableEq, Repr

instance : Inhabited Influence := ⟨⟨[]⟩⟩

/-- The node's short (leaf) name: `influence.split("|")[-1]`
(`unbake_weights`, `skin_cluster_manager.py` 207).  `partialPathName()`
(used when baking, lines 176-178) returns the shortest unique path, which is
this same leaf name whenever leaf names are scene-unique — the working
assumption of the bake format (a clashing leaf would embed `"|"` inside a
baked cell and corrupt the `split("|")` parse). -/
def shortName (influence : Influence) : String :=
  influence.pathComponents.getLastD ""

/-- `fullPathName()` of an influence, as stored in `self.influences`. -/
def fullPathOf (influence : Influence) : String :=
  String.intercalate ("|") influence.pathComponents

/-- One vertex's baked blind-data chunk (`bake_weights`,
`skin_cluster_manager.py` 170-189): a list of `number_of_influences` cells,
initially `""` (here `none`), where cell `joint_index` is set to
`"<bone_short_name>:<weight_value>|"` (here the token
`(bone_short_name, weight_value)`) for each stored sparse pair. -/
def bake_chunk (influence_objects : List Influence)
    (number_of_influences : ℕ) (weights : List (ℕ × PyFloat)) :
    List (Option (String × PyFloat)) :=
  writeAll
    (weights.map (fun p =>
      (p.1, some (shortName (influence_objects.getD p.1 default), p.2))))
    (List.replicate number_of_influences none)

/-- `"".join(blind_data_chunk)` followed by the unbake-side parse
`split("|")[:-1]` / `split(":")`: since bone names and numerals contain
neither separator, the joined string carries exactly the in-order list of
non-empty cells, which is the token-level representation used here (the
numeral round-trip `float(str(w))` is exact in CPython 3). -/
def join_chunk (cells : List (Option (String × PyFloat))) :
    List (String × PyFloat) :=
  cells.filterMap id

/-- `SkinClusterManager.bake_weights` (`skin_cluster_manager.py` 142-196):
one joined blind-data string per vertex, built from the gathered skinning
data (`influence_indexes` is the identity, so
`influence_objects[influence_indexes[joint_index]]` is
`influence_objects[joint_index]`). -/
def bake_weights (influence_objects : List Influence)
    (skinning_data : SkinningData)
    (number_of_verts number_of_influences : ℕ) :
    List (List (String × PyFloat)) :=
  (List.range number_of_verts).map (fun vert_id =>
    join_chunk (bake_chunk influence_objects number_of_influences
      ((skinning_data.verts.getD vert_id default).weights)))

/-- `BaseSkinCluster.get_vertex_string_blind_data` (`skin_cluster.py`
339-370) as `unbake_weights` observes it: per the code's own comment
("By default, the data comes back in reverse"), the host returns the
per-vertex strings in reverse vertex order together with the vert ids. -/
def get_vertex_string_blind_data (store : List (List (String × PyFloat))) :
    List ℕ × List (List (String × PyFloat)) :=
  (List.range store.length, store.reverse)

/-- `SkinClusterManager.unbake_weights` (`skin_cluster_manager.py` 198-249),
`verts=None` path: `vert_ids = range(len(vert_ids))`,
`vertex_string_data.reverse()`, then for each vertex parse the cells and
write each weight at `influences.index(bone_short_name)` into a zeroed
chunk of the current binding's influence count, extending the flat
matrix. -/
def unbake_weights (current_influences : List Influence)
    (number_of_influences : ℕ) (store : List (List (String × PyFloat))) :
    List PyFloat :=
  let influences := current_influences.map shortName
  let returned := get_vertex_string_blind_data store
  let vert_ids := List.range returned.1.length
  let data := returned.2.reverse
  (vert_ids.map (fun vert_id =>
    writeAll
      ((data.getD vert_id []).map
        (fun cell => (influences.indexOf cell.1, cell.2)))
      (List.replicate number_of_influences (PyFloat.val 0)))).flatten

theorem unbake_weights_eq (current_influences : List Influence)
    (number_of_influences : ℕ)
    (store : List (List (String × PyFloat))) :
    unbake_weights current_influences number_of_influences store
      = ((List.range store.length).map (fun vert_id =>
          writeAll
            ((store.getD vert_id []).map
              (fun cell =>
                ((current_influences.map shortName).indexOf cell.1,
                 cell.2)))
            (List.replicate number_of_influences (PyFloat.val 0)))).flatten
    := by
  unfold unbake_weights get_vertex_string_blind_data
  simp [List.reverse_reverse]

theorem list_eq_map_range_getD (l : List α) (K : ℕ) (hl : l.length = K)
    (d : α) : l = (List.range K).map (fun q => l.getD q d) := by
  apply List.ext_getElem (by simp [hl])
  intro j h1 h2
  have hjK : j < K := by simpa using h2
  simp only [List.getElem_map, List.getElem_range]
  rw [List.getD_eq_getElem _ _ h1]

theorem getD_flatten_uniform (K : ℕ) (d : α) :
    ∀ (rows : List (List α)), (∀ r ∈ rows, r.length = K) →
      ∀ (v t : ℕ), v < rows.length → t < K →
        rows.flatten.getD (v * K + t) d = (rows.getD v []).getD t d := by
  intro rows
  induction rows with
  | nil =>
    intro _ v t hv
    simp at hv
  | cons r rs ih =>
    intro huni v t hv ht
    cases v with
    | zero =>
      simp only [List.flatten_cons, Nat.zero_mul, Nat.zero_add]
      rw [List.getD_append _ _ _ _ (by rw [huni r (by simp)]; exact ht)]
      simp [List.getD]
    | succ u =>
      simp only [List.flatten_cons]
      have hrK : r.length = K := huni r (by simp)
      have hge : r.length ≤ (u + 1) * K + t := by
        rw [hrK, Nat.add_mul]
        have : 0 ≤ u * K := Nat.zero_le _
        omega
      rw [List.getD_append_right _ _ _ _ hge]
      have hidx : (u + 1) * K + t - r.length = u * K + t := by
        rw [hrK, Nat.add_mul]
        omega
      rw [hidx]
      have := ih (fun s2 hs2 => huni s2 (by simp [hs2])) u t
        (by simpa using hv) ht
      rw [this]
      simp [List.getD]

theorem get_skinning_data_vert_weights (N K : ℕ) (hK : 0 < K)
    (input_geometry : String) (influence_names : List String)
    (hIK : influence_names.length = K)
    (weights : List PyFloat) (hw : weights.length = N * K)
    (positions normals : List MVector) (v : ℕ) (hv : v < N) :
    ((get_skinning_data input_geometry influence_names weights positions
        normals).verts.getD v default).weights
      = filter_weight_pairs
          ((List.range K).zip ((weights.drop (v * K)).take K)) := by
  subst hIK
  have hverts : (get_skinning_data input_geometry influence_names weights
      positions normals).verts
      = (List.range
          (get_weight_data influence_names.length weights).length).map
        (fun vert_id =>
          { position := positions.getD vert_id default
            normal := normals.getD vert_id default
            weights := filter_weight_pairs
              ((get_weight_data influence_names.length weights).getD
                vert_id []) }) := rfl
  rw [hverts, get_weight_data_length N _ hK weights hw,
    getD_map_range _ _ _ hv]
  simp only
  rw [get_weight_data_getD N _ hK weights hw v hv]

theorem bake_chunk_length (infs : List Influence) (K : ℕ)
    (S : List (ℕ × PyFloat)) : (bake_chunk infs K S).length = K := by
  unfold bake_chunk
  rw [length_writeAll, List.length_replicate]

theorem bake_chunk_getD_of_mem (infs : List Influence) (K : ℕ)
    (S : List (ℕ × PyFloat)) (hnd : (S.map Prod.fst).Nodup)
    (q : ℕ) (w : PyFloat) (hq : q < K) (hmem : (q, w) ∈ S) :
    (bake_chunk infs K S).getD q none
      = some (shortName (infs.getD q default), w) := by
  unfold bake_chunk
  apply getD_writeAll_of_mem
  · simpa [List.map_map, Function.comp] using hnd
  · simpa using List.mem_map_of_mem
      (fun p => ((p : ℕ × PyFloat).1,
        some (shortName (infs.getD p.1 default), p.2))) hmem
  · simpa using hq

theorem bake_chunk_getD_of_not_mem (infs : List Influence) (K : ℕ)
    (S : List (ℕ × PyFloat)) (q : ℕ) (hnot : q ∉ S.map Prod.fst) :
    (bake_chunk infs K S).getD q none = none := by
  unfold bake_chunk
  rw [getD_writeAll_of_not_mem]
  · simp only [List.getD_eq_getElem?_getD, List.getElem?_replicate]
    split <;> rfl
  · simpa [List.map_map, Function.comp] using hnot

theorem bake_chunk_getD_some_imp (infs : List Influence) (K : ℕ)
    (S : List (ℕ × PyFloat)) (hnd : (S.map Prod.fst).Nodup)
    (q : ℕ) (c : String × PyFloat)
    (h : (bake_chunk infs K S).getD q none = some c) :
    q < K ∧ (q, c.2) ∈ S ∧ c.1 = shortName (infs.getD q default) := by
  have hqK : q < K := by
    by_contra hge
    rw [List.getD_eq_getElem?_getD, List.getElem?_eq_none
      (by rw [bake_chunk_length]; exact Nat.le_of_not_lt hge)] at h
    simp at h
  by_cases hmem : q ∈ S.map Prod.fst
  · obtain ⟨p, hp, hfst⟩ := List.mem_map.mp hmem
    obtain ⟨q2, w⟩ := p
    simp only at hfst
    subst hfst
    rw [bake_chunk_getD_of_mem infs K S hnd q2 w hqK hp] at h
    have hc : c = (shortName (infs.getD q2 default), w) :=
      (Option.some_inj.mp h).symm
    subst hc
    exact ⟨hqK, hp, rfl⟩
  · rw [bake_chunk_getD_of_not_mem infs K S q hmem] at h
    simp at h

theorem mem_join_bake_chunk (infs : List Influence) (K : ℕ)
    (S : List (ℕ × PyFloat)) (hnd : (S.map Prod.fst).Nodup)
    (c : String × PyFloat) :
    c ∈ join_chunk (bake_chunk infs K S)
      ↔ ∃ q, q < K ∧ (q, c.2) ∈ S
          ∧ c.1 = shortName (infs.getD q default) := by
  unfold join_chunk
  rw [List.mem_filterMap]
  constructor
  · rintro ⟨o, ho, hoc⟩
    have ho2 : some c ∈ bake_chunk infs K S := by
      have : o = some c := hoc
      rw [← this]
      exact ho
    obtain ⟨q, hq, hget⟩ := List.mem_iff_getElem.mp ho2
    have hgetD : (bake_chunk infs K S).getD q none = some c := by
      rw [List.getD_eq_getElem _ _ hq, hget]
    exact ⟨q, bake_chunk_getD_some_imp infs K S hnd q c hgetD⟩
  · rintro ⟨q, hqK, hmem, hname⟩
    refine ⟨some c, ?_, rfl⟩
    have hgetD : (bake_chunk infs K S).getD q none = some c := by
      rw [bake_chunk_getD_of_mem infs K S hnd q c.2 hqK hmem, ← hname]
    have hqlen : q < (bake_chunk infs K S).length := by
      rw [bake_chunk_length]
      exact hqK
    rw [List.getD_eq_getElem _ _ hqlen] at hgetD
    exact hgetD ▸ List.getElem_mem hqlen

theorem join_bake_chunk_names_nodup (infs : List Influence) (K : ℕ)
    (hK : infs.length = K) (hnames : (infs.map shortName).Nodup)
    (S : List (ℕ × PyFloat)) (hnd : (S.map Prod.fst).Nodup) :
    ((join_chunk (bake_chunk infs K S)).map Prod.fst).Nodup := by
  set cells := bake_chunk infs K S with hcells
  have hcl : cells.length = K := bake_chunk_length infs K S
  have h1 : join_chunk cells
      = (List.range K).filterMap (fun q => cells.getD q none) := by
    unfold join_chunk
    conv_lhs => rw [list_eq_map_range_getD cells K hcl none]
    rw [List.filterMap_map]
    rfl
  have h2 : (join_chunk cells).map Prod.fst
      = (List.range K).filterMap
          (fun q => Option.map Prod.fst (cells.getD q none)) := by
    rw [h1, List.map_filterMap]
  rw [h2]
  apply List.Nodup.filterMap ?hinj (List.nodup_range K)
  intro q q2 n hq hq2
  rw [Option.mem_def] at hq hq2
  obtain ⟨c, hc, hcn⟩ := Option.map_eq_some'.mp hq
  obtain ⟨c2, hc2, hcn2⟩ := Option.map_eq_some'.mp hq2
  obtain ⟨hqK, _, hname⟩ := bake_chunk_getD_some_imp infs K S hnd q c hc
  obtain ⟨hqK2, _, hname2⟩ := bake_chunk_getD_some_imp infs K S hnd q2 c2 hc2
  have hql : q < (infs.map shortName).length := by
    rw [List.length_map]
    omega
  have hql2 : q2 < (infs.map shortName).length := by
    rw [List.length_map]
    omega
  have h1 : (infs.map shortName)[q] = n := by
    rw [List.getElem_map, ← List.getD_eq_getElem infs default
      (by omega), ← hname, hcn]
  have h2 : (infs.map shortName)[q2] = n := by
    rw [List.getElem_map, ← List.getD_eq_getElem infs default
      (by omega), ← hname2, hcn2]
  exact (List.Nodup.getElem_inj_iff hnames).mp (h1.trans h2.symm)

theorem join_bake_chunk_names_mem (infs : List Influence) (K : ℕ)
    (hK : infs.length = K) (S : List (ℕ × PyFloat))
    (hnd : (S.map Prod.fst).Nodup) (c : String × PyFloat)
    (hc : c ∈ join_chunk (bake_chunk infs K S)) :
    c.1 ∈ infs.map shortName := by
  obtain ⟨q, hqK, _, hname⟩ := (mem_join_bake_chunk infs K S hnd c).mp hc
  rw [hname, List.getD_eq_getElem infs default (by omega)]
  exact List.mem_map_of_mem shortName (List.getElem_mem _)

theorem filter_zip_cases (K : ℕ) (row : List PyFloat) (hrow : row.length = K)
    (j : ℕ) (hj : j < K) :
    ((j, row[j]) ∈ filter_weight_pairs ((List.range K).zip row))
    ∨ (j ∉ (filter_weight_pairs ((List.range K).zip row)).map Prod.fst
       ∧ row[j] = PyFloat.val 0) := by
  have hjr : j < row.length := by omega
  by_cases hkeep :
      (pyNeqZero (row[j]) && strNeqNaN (row[j])) = true
  · left
    apply List.mem_filter.mpr
    exact ⟨(mem_zip_range_iff hrow).mpr
      ⟨hj, List.getElem?_eq_getElem hjr⟩, hkeep⟩
  · right
    refine ⟨?_, ?_⟩
    · intro hmem
      obtain ⟨p, hp, hfst⟩ := List.mem_map.mp hmem
      obtain ⟨j2, w⟩ := p
      simp only at hfst
      have hzip := List.mem_of_mem_filter hp
      have hw := ((mem_zip_range_iff hrow).mp hzip).2
      rw [hfst, List.getElem?_eq_getElem hjr] at hw
      have hwv : w = row[j] := (Option.some_inj.mp hw).symm
      have hguard := (List.mem_filter.mp hp).2
      simp only at hguard
      rw [hwv] at hguard
      exact hkeep hguard
    · rw [strNeqNaN_eq_true, Bool.and_true] at hkeep
      exact (pyNeqZero_eq_false_iff _).mp (by simpa using hkeep)

/-- C4 — bake/unbake round-trip by influence name: baking a binding to
per-vertex strings (`bake_weights`) and unbaking them
(`unbake_weights`) onto a binding whose influence column order may differ
(any permutation of the same short names) reproduces, for every vertex `v`
and every original influence `j`, the original dense weight — the value now
sits in the column the new binding assigns to that influence *name*.
Hypotheses: leaf names are pairwise distinct (the bake format's working
assumption) and the new binding carries a permutation of the baked names. -/
theorem bake_unbake_preserves_named_weights
    (N K : ℕ) (hK : 0 < K) (input_geometry : String)
    (influence_objects new_influences : List Influence)
    (hlen : influence_objects.length = K)
    (hnames : (influence_objects.map shortName).Nodup)
    (hperm : (new_influences.map shortName).Perm
      (influence_objects.map shortName))
    (weights : List PyFloat) (hw : weights.length = N * K)
    (positions normals : List MVector)
    (v j : ℕ) (hv : v < N) (hj : j < K) :
    (unbake_weights new_influences new_influences.length
        (bake_weights influence_objects
          (get_skinning_data input_geometry
            (influence_objects.map fullPathOf) weights positions normals)
          N K)).getD
      (v * new_influences.length
        + (new_influences.map shortName).indexOf
            (shortName (influence_objects.getD j default)))
      (PyFloat.val 0)
    = weights.getD (v * K + j) (PyFloat.val 0) := by
  have hK2 : new_influences.length = K := by
    have h := hperm.length_eq
    simp only [List.length_map] at h
    omega
  set sd := get_skinning_data input_geometry
    (influence_objects.map fullPathOf) weights positions normals with hsd
  set store := bake_weights influence_objects sd N K with hstore
  have hstorelen : store.length = N := by
    rw [hstore]
    unfold bake_weights
    rw [List.length_map, List.length_range]
  set row := (weights.drop (v * K)).take K with hrow
  have hrowlen : row.length = K := by
    rw [hrow, List.length_take, List.length_drop, hw]
    have h1 : (v + 1) * K ≤ N * K := Nat.mul_le_mul_right K (by omega)
    rw [Nat.add_mul] at h1
    omega
  set S := filter_weight_pairs ((List.range K).zip row) with hS
  have hSnd : (S.map Prod.fst).Nodup := by
    rw [hS]
    exact nodup_fst_filter_zip hrowlen
  have hsdw : (sd.verts.getD v default).weights = S := by
    rw [hsd, hS, hrow]
    exact get_skinning_data_vert_weights N K hK _ _
      (by rw [List.length_map]; exact hlen) weights hw positions normals v hv
  have hstorev : store.getD v []
      = join_chunk (bake_chunk influence_objects K S) := by
    rw [hstore]
    unfold bake_weights
    rw [getD_map_range _ _ _ hv, hsdw]
  have hjI : j < influence_objects.length := by omega
  have hgetDj : influence_objects.getD j default
      = influence_objects[j] := List.getD_eq_getElem _ _ hjI
  set name_j := shortName (influence_objects.getD j default) with hnj
  have hjml : j < (influence_objects.map shortName).length := by
    rw [List.length_map]
    omega
  have hname_old : name_j
      = (influence_objects.map shortName)[j] := by
    rw [hnj, hgetDj, List.getElem_map]
  have hmem_old : name_j ∈ influence_objects.map shortName := by
    rw [hname_old]
    exact List.getElem_mem _
  have hmem_new : name_j ∈ new_influences.map shortName :=
    hperm.mem_iff.mpr hmem_old
  set t := (new_influences.map shortName).indexOf name_j with ht
  have htK : t < K := by
    have h := List.indexOf_lt_length.mpr hmem_new
    rw [List.length_map, hK2] at h
    exact h
  rw [unbake_weights_eq]
  set rename := fun cell : String × PyFloat =>
    ((new_influences.map shortName).indexOf cell.1, cell.2) with hrename
  have huni : ∀ r ∈ (List.range store.length).map (fun vert_id =>
      writeAll ((store.getD vert_id []).map rename)
        (List.replicate new_influences.length (PyFloat.val 0))),
      r.length = K := by
    intro r hr
    obtain ⟨vid, _, rfl⟩ := List.mem_map.mp hr
    rw [length_writeAll, List.length_replicate, hK2]
  have hidxeq : v * new_influences.length + t = v * K + t := by
    rw [hK2]
  rw [hidxeq]
  rw [getD_flatten_uniform K (PyFloat.val 0) _ huni v t
    (by rw [List.length_map, List.length_range, hstorelen]; exact hv) htK]
  rw [getD_map_range _ _ _ (by rw [hstorelen]; exact hv), hstorev]
  set join := join_chunk (bake_chunk influence_objects K S) with hjoin
  have hjn_nodup : (join.map Prod.fst).Nodup := by
    rw [hjoin]
    exact join_bake_chunk_names_nodup influence_objects K hlen hnames S hSnd
  have hjn_mem : ∀ c ∈ join, c.1 ∈ influence_objects.map shortName := by
    intro c hc
    rw [hjoin] at hc
    exact join_bake_chunk_names_mem influence_objects K hlen S hSnd c hc
  have hWfst : (join.map rename).map Prod.fst
      = (join.map Prod.fst).map
          (fun n => (new_influences.map shortName).indexOf n) := by
    rw [List.map_map, List.map_map]
    rfl
  have hWnodup : ((join.map rename).map Prod.fst).Nodup := by
    rw [hWfst]
    apply List.Nodup.map_on ?H hjn_nodup
    intro x hx y hy hxy
    obtain ⟨cx, hcx, rfl⟩ := List.mem_map.mp hx
    obtain ⟨cy, hcy, rfl⟩ := List.mem_map.mp hy
    exact (List.indexOf_inj (hperm.mem_iff.mpr (hjn_mem cx hcx))
      (hperm.mem_iff.mpr (hjn_mem cy hcy))).mp hxy
  have hjrow : j < row.length := by omega
  have hwveq : weights.getD (v * K + j) (PyFloat.val 0) = row[j] := by
    have hb : v * K + j < weights.length := by
      rw [hw]
      have h1 : (v + 1) * K ≤ N * K := Nat.mul_le_mul_right K (by omega)
      rw [Nat.add_mul] at h1
      omega
    rw [List.getD_eq_getElem _ _ hb]
    simp only [hrow, List.getElem_take, List.getElem_drop]
  rcases filter_zip_cases K row hrowlen j hj with hkeep | hdrop
  · have hcellmem : ((name_j, row[j]) : String × PyFloat) ∈ join := by
      rw [hjoin]
      apply (mem_join_bake_chunk influence_objects K S hSnd _).mpr
      refine ⟨j, hj, ?_, ?_⟩
      · rw [hS]
        simpa using hkeep
      · rw [hnj]
    have hpairmem : ((t, row[j]) : ℕ × PyFloat)
        ∈ join.map rename := by
      have h := List.mem_map_of_mem rename hcellmem
      simpa [hrename, ht] using h
    rw [getD_writeAll_of_mem _ _ _ _ _ hWnodup hpairmem
      (by rw [List.length_replicate, hK2]; exact htK)]
    exact hwveq.symm
  · obtain ⟨hnot, hzero⟩ := hdrop
    have hnotS : j ∉ S.map Prod.fst := by
      rw [hS]
      simpa using hnot
    have hnotW : t ∉ (join.map rename).map Prod.fst := by
      rw [hWfst]
      intro hmemW
      obtain ⟨n, hn, hidxn⟩ := List.mem_map.mp hmemW
      obtain ⟨c, hc, rfl⟩ := List.mem_map.mp hn
      have hcn_new : c.1 ∈ new_influences.map shortName :=
        hperm.mem_iff.mpr (hjn_mem c hc)
      have hceq : c.1 = name_j :=
        (List.indexOf_inj hcn_new hmem_new).mp (hidxn.trans ht)
      obtain ⟨q, hqK, hqmem, hqname⟩ :=
        (mem_join_bake_chunk influence_objects K S hSnd c).mp
          (hjoin ▸ hc)
      have hqI : q < influence_objects.length := by omega
      have hqml : q < (influence_objects.map shortName).length := by
        rw [List.length_map]
        omega
      have hqold : c.1 = (influence_objects.map shortName)[q] := by
        rw [hqname, List.getD_eq_getElem _ _ hqI, List.getElem_map]
      have hqj : q = j := by
        apply (List.Nodup.getElem_inj_iff hnames).mp
        rw [← hqold, hceq, hname_old]
      apply hnotS
      rw [← hqj]
      exact List.mem_map_of_mem Prod.fst hqmem
    rw [getD_writeAll_of_not_mem _ _ _ _ hnotW]
    rw [hwveq, hzero]
    simp only [List.getD_eq_getElem?_getD, List.getElem?_replicate]
    split <;> rfl

/-- Witness for `bake_unbake_preserves_named_weights`: influences
`jointA, jointB` with the spec's example weights `[0.6, 0.4]` on one vertex,
rebound with the influence columns swapped; `jointA`'s weight `0.6` lands in
the new binding's column for `jointA` (index 1). -/
theorem bake_unbake_preserves_named_weights_witness :
    ((0 : ℕ) < 2
      ∧ ([Influence.mk ["jointA"], Influence.mk ["jointB"]]
          : List Influence).length = 2
      ∧ (([Influence.mk ["jointA"], Influence.mk ["jointB"]]
          : List Influence).map shortName).Nodup
      ∧ (([Influence.mk ["jointB"], Influence.mk ["jointA"]]
          : List Influence).map shortName).Perm
          (([Influence.mk ["jointA"], Influence.mk ["jointB"]]
            : List Influence).map shortName)
      ∧ ([PyFloat.val (3/5), PyFloat.val (2/5)] : List PyFloat).length
          = 1 * 2)
    ∧ (unbake_weights [Influence.mk ["jointB"], Influence.mk ["jointA"]]
        ([Influence.mk ["jointB"], Influence.mk ["jointA"]]
          : List Influence).length
        (bake_weights [Influence.mk ["jointA"], Influence.mk ["jointB"]]
          (get_skinning_data ("|geo")
            (([Influence.mk ["jointA"], Influence.mk ["jointB"]]
              : List Influence).map fullPathOf)
            [PyFloat.val (3/5), PyFloat.val (2/5)] [] [])
          1 2)).getD
        (0 * ([Influence.mk ["jointB"], Influence.mk ["jointA"]]
            : List Influence).length
          + (([Influence.mk ["jointB"], Influence.mk ["jointA"]]
              : List Influence).map shortName).indexOf
              (shortName
                (([Influence.mk ["jointA"], Influence.mk ["jointB"]]
                  : List Influence).getD 0 default)))
        (PyFloat.val 0)
      = ([PyFloat.val (3/5), PyFloat.val (2/5)]
          : List PyFloat).getD (0 * 2 + 0) (PyFloat.val 0) := by
  refine ⟨⟨by decide, by decide, by decide, by decide, by decide⟩, ?_⟩
  exact bake_unbake_preserves_named_weights 1 2 (by decide) ("|geo")
    [Influence.mk ["jointA"], Influence.mk ["jointB"]]
    [Influence.mk ["jointB"], Influence.mk ["jointA"]]
    (by decide) (by decide) (by decide) _ (by decide) [] [] 0 0
    (by decide) (by decide)
